import Mathlib

/-!
Verification of the Plannr allocation engine.

This file is a shallow embedding of the allocation core of
`AMCBDG_SQL.py` (function `process_single_scenario`, lines 746-1428, and
its surrounding pipeline `load_and_process_database`), together with a
separate transcription of the duplicated engine in `AMCBDG_SQL_Qt6.py`
(method `process_single_scenario`, lines 629-1147).

Modelling conventions:
* part identifiers and order ids are `String`s, as in the source
  (all key columns go through `astype(str)`);
* quantities (stock, demand, hours) are rationals `Rat`; BOM component
  quantities are integers, mirroring `int(comp["Component Qty Required"])`;
* python dictionaries keyed by part (`stock`, `used_components`,
  `labor_standards`) are total functions `String → Rat` with default 0,
  matching the pervasive `d.get(key, 0)` access pattern;
* dates are `Option Int` (day numbers); `none` stands for `NaT`;
* the shortage-detail strings built by the source carry the tuple of
  values interpolated into them; they are modelled by the structured type
  `ShortRec` whose constructors correspond one-to-one to the four f-string
  shapes in the source (formatting is injective on those values);
* exceptions caught by the per-component `try/except` are modelled by the
  `QtyCell.invalid` constructor: the only data-dependent failure point in
  the component loop is the `int(...)` parse of the quantity cell.
-/

namespace Plannr

abbrev Part := String

/-- Status column of one allocation result: the three terminal statuses
written by the engine as the strings Skipped, Release and Hold. -/
inductive Status where
  | skipped
  | released
  | held
deriving DecidableEq, Repr

/-- Content of the quantity cell of one BOM row.  `missing` models a NaN
cell (the source turns it into 0), `valid n` a cell parsed by `int(...)`,
and `invalid msg` a cell whose parse raises the exception caught by the
per-component handler of `process_single_scenario` (lines 1026-1029). -/
inductive QtyCell where
  | missing
  | valid (n : Int)
  | invalid (msg : String)
deriving DecidableEq, Repr

/-- Row of the `planned_demand` relation (one BOM line). -/
structure BomRow where
  so : String
  part : Part
  qtyCell : QtyCell
deriving DecidableEq, Repr

/-- Row of the `df_pos` relation (one purchase-order line), after the
loader's date coercion: `promised = none` models an unparseable date
(`pd.to_datetime(..., errors="coerce")` giving `NaT`). -/
structure PoRow where
  poNumber : String
  part : Part
  qtyDue : Rat
  promised : Option Int
deriving DecidableEq, Repr

/-- Row of the preprocessed `df_main` relation.  After the source's
preprocessing the `Part` column is a string (a missing part shows up as
the literal string "nan"), `Demand` is numeric with NaN filled by 0, and
`Start Date` is a coerced date. -/
structure OrderRow where
  so : String
  part : Part
  planner : String
  startDate : Option Int
  demandCell : Rat
deriving DecidableEq, Repr

/-- Immutable context of one scenario: the five input relations after the
source's preprocessing, plus the current date used by the PO filter. -/
structure Ctx where
  stock : Part → Rat
  committed : Part → Rat
  labor : Part → Rat
  planned : List BomRow
  pos : List PoRow
  demand : List OrderRow
  now : Int

/-- Structured rendering of one entry of `shortage_details`.  The four
constructors correspond to the four f-string shapes built by the source:
a shortage with a resolving PO, a shortage without one (carrying the
`need`/`have`/`short` values), a component-processing error, and the
raw-material stock-lookup failure. -/
inductive ShortRec where
  | withPo (part : Part) (short : Rat) (poNumber : String) (poDate : Int)
  | noPo (part : Part) (need : Rat) (haveQty : Rat) (short : Rat)
  | procError (msg : String)
  | lookupFailed (part : Part)
deriving DecidableEq, Repr

/-- One allocation result record (one dict appended to `results`). -/
structure ResultRec where
  so : String
  part : Part
  planner : String
  startDate : Option Int
  pb : Bool
  demand : Rat
  hours : Rat
  status : Status
  shortages : List ShortRec
  componentsNeeded : List (Part × Int)
deriving DecidableEq, Repr

/-- Pointwise update of a dictionary-as-function, the meaning of
`d[k] = v` on a python dict accessed through `d.get(k, 0)`. -/
def updateFn (f : Part → Rat) (p : Part) (v : Rat) : Part → Rat :=
  fun q => if q = p then v else f q

/-- Insertion-order-preserving dict write `components_needed[k] = v`:
overwrite the existing key or append a new one. -/
def listUpsert (l : List (Part × Int)) (p : Part) (v : Int) : List (Part × Int) :=
  if l.any (fun x => x.1 = p) then
    l.map (fun x => if x.1 = p then (p, v) else x)
  else
    l ++ [(p, v)]

/-- Rounding of the Hours column, `round(labor_hours, 4)`.  Half-way
behaviour differs from python's banker's rounding; no half-way value is
relevant to any claim. -/
def round4 (q : Rat) : Rat := ((round (q * 10000) : Int) : Rat) / 10000

/-- Evaluation of `int(comp["Component Qty Required"]) if pd.notna(...)
else 0` inside the per-component try block: a NaN cell gives 0, a parse
failure raises (modelled by `Except.error`). -/
def parseQty : QtyCell → Except String Int
  | .missing => .ok 0
  | .valid n => .ok n
  | .invalid msg => .error msg

/-- Date guard of the PO search:
`pd.to_datetime(po["Promised Due Date"], errors="coerce") >= datetime.now()`;
a NaT date compares false. -/
def dateGE (d : Option Int) (now : Int) : Bool :=
  match d with
  | some x => x ≥ now
  | none => false

/-- PO search for one failing component (lines 1009-1019 of
`AMCBDG_SQL.py`): restrict `df_pos` to rows of this part with promised
date not in the past, and take the first row whose quantity due covers
the shortage. -/
def resolvePo (pos : List PoRow) (now : Int) (part : Part) (shortage : Rat) :
    Option PoRow :=
  (pos.filter (fun po => po.part = part ∧ dateGE po.promised now)).find?
    (fun po => po.qtyDue ≥ shortage)

/-- State of the read-only feasibility pass over one order's BOM:
`all_components_available`, `component_requirements` (part, required
quantity, clamped available), `components_needed`, `shortage_details`. -/
structure CState where
  allAvail : Bool
  reqs : List (Part × Int × Rat)
  needed : List (Part × Int)
  shorts : List ShortRec
deriving Repr

/-- Body of `for _, comp in bom.iterrows()` (lines 939-1029 of
`AMCBDG_SQL.py`): parse the required quantity, compute the signed
available quantity from the untouched ledger, record the requirement, and
on insufficiency record a shortage, resolved against future POs.  The
`except` arm maps a parse failure to a diagnostic entry and clears
`all_components_available`. -/
def checkStep (ctx : Ctx) (used : Part → Rat) (s : CState) (comp : BomRow) :
    CState :=
  match parseQty comp.qtyCell with
  | .error msg =>
      { s with allAvail := false, shorts := s.shorts ++ [.procError msg] }
  | .ok requiredQty =>
      let totalUsed := used comp.part
      let trueAvailable := ctx.stock comp.part - totalUsed
      let available := max 0 trueAvailable
      let availableAfterUsage := trueAvailable - (requiredQty : Rat)
      let willBeSufficient := trueAvailable ≥ (requiredQty : Rat)
      let reqs' := s.reqs ++ [(comp.part, requiredQty, available)]
      let needed' := listUpsert s.needed comp.part requiredQty
      if willBeSufficient then
        { s with reqs := reqs', needed := needed' }
      else
        let shortage := |availableAfterUsage|
        match resolvePo ctx.pos ctx.now comp.part shortage with
        | some po =>
            { allAvail := false, reqs := reqs', needed := needed',
              shorts := s.shorts ++
                [.withPo comp.part shortage po.poNumber (po.promised.getD 0)] }
        | none =>
            { allAvail := false, reqs := reqs', needed := needed',
              shorts := s.shorts ++
                [.noPo comp.part (requiredQty : Rat) trueAvailable shortage] }

/-- Read-only feasibility pass over the whole BOM: the ledger argument
`used` is fixed throughout, mirroring that the source does not mutate
`used_components` during this loop. -/
def checkComponents (ctx : Ctx) (used : Part → Rat) (bom : List BomRow) :
    CState :=
  bom.foldl (checkStep ctx used) ⟨true, [], [], []⟩

/-- Commit loop (lines 1034-1037): decrement the ledger once per
requirement line, `used_components[p] = used_components.get(p, 0) + q`. -/
def commitReqs (used : Part → Rat) (reqs : List (Part × Int × Rat)) :
    Part → Rat :=
  reqs.foldl (fun u r => updateFn u r.1 (u r.1 + (r.2.1 : Rat))) used

/-- Skip guard (line 823): `part is None or part == "nan" or demand_qty <= 0`.
After `astype(str)` the part cell is never `None`, so the guard reduces to
the two remaining tests. -/
def isSkip (row : OrderRow) : Bool :=
  row.part = "nan" ∨ (if row.demandCell > 0 then row.demandCell else 0) ≤ 0

/-- Demand used by the engine: `row["Demand"] if pd.notna(...) and
row["Demand"] > 0 else 0` (line 780). -/
def demandQty (row : OrderRow) : Rat :=
  if row.demandCell > 0 then row.demandCell else 0

/-- BOM lookup for one order (line 851):
`planned_demand[planned_demand["SO Number"] == so]`. -/
def bomOf (ctx : Ctx) (so : String) : List BomRow :=
  ctx.planned.filter (fun r => r.so = so)

/-- Piggyback flag (lines 843-847): the synthetic id `NS<part>99` occurs
among the component part numbers of `planned_demand`. -/
def pbFlag (ctx : Ctx) (part : Part) : Bool :=
  ctx.planned.any (fun r => r.part = "NS" ++ part ++ "99")

/-- Body of the per-order loop of `process_single_scenario`
(lines 778-1148 of `AMCBDG_SQL.py`, debug output elided): skip guard,
piggyback flag, BOM lookup, then either the all-or-nothing BOM path
(feasibility pass + commit) or the raw-material path, producing the
updated ledger and one result record. -/
def processOrder (ctx : Ctx) (used : Part → Rat) (row : OrderRow) :
    (Part → Rat) × ResultRec :=
  if isSkip row then
    (used,
      { so := row.so
        part := if row.part = "nan" then "MISSING" else row.part
        planner := row.planner
        startDate := row.startDate
        pb := false
        demand := demandQty row
        hours := 0
        status := .skipped
        shortages := []
        componentsNeeded := [] })
  else
    let dq := demandQty row
    let isPb := pbFlag ctx row.part
    let bom := bomOf ctx row.so
    let laborHours := ctx.labor row.part * dq
    if bom.isEmpty then
      -- raw-material / purchased-part path (lines 1041-1105)
      let totalUsed := used row.part
      let trueAvailable := ctx.stock row.part - totalUsed
      let availableAfterUsage := trueAvailable - dq
      if trueAvailable ≥ dq then
        (updateFn used row.part (used row.part + dq),
          { so := row.so, part := row.part, planner := row.planner,
            startDate := row.startDate, pb := isPb, demand := dq,
            hours := round4 laborHours, status := .released,
            shortages := [], componentsNeeded := [] })
      else
        (used,
          { so := row.so, part := row.part, planner := row.planner,
            startDate := row.startDate, pb := isPb, demand := dq,
            hours := round4 laborHours, status := .held,
            shortages := [.noPo row.part dq trueAvailable |availableAfterUsage|],
            componentsNeeded := [] })
    else
      -- all-or-nothing BOM path (lines 931-1039)
      let st := checkComponents ctx used bom
      if st.allAvail then
        (commitReqs used st.reqs,
          { so := row.so, part := row.part, planner := row.planner,
            startDate := row.startDate, pb := isPb, demand := dq,
            hours := round4 laborHours, status := .released,
            shortages := st.shorts, componentsNeeded := st.needed })
      else
        (used,
          { so := row.so, part := row.part, planner := row.planner,
            startDate := row.startDate, pb := isPb, demand := dq,
            hours := round4 laborHours, status := .held,
            shortages := st.shorts, componentsNeeded := st.needed })

/-- Sequential run of the engine over a processing sequence, starting
from a ledger usage state (the source seeds it with
`used_components = committed_components.copy()`). -/
def runFrom (ctx : Ctx) (used : Part → Rat) (orders : List OrderRow) :
    (Part → Rat) × List ResultRec :=
  match orders with
  | [] => (used, [])
  | o :: rest =>
      let (used', r) := processOrder ctx used o
      let (usedF, rs) := runFrom ctx used' rest
      (usedF, r :: rs)

/-- One complete run: process the given ordering against a fresh ledger
seeded from stock net of committed demand. -/
def runEngine (ctx : Ctx) (orders : List OrderRow) :
    (Part → Rat) × List ResultRec :=
  runFrom ctx ctx.committed orders

/-! ## Run metrics (lines 1151-1265 of `AMCBDG_SQL.py`)

The per-planner category blocks (BVI kits, Malosa kits, manufacturing,
assembly, packaging, Malosa instruments, virtuoso, kit samples) all
follow the same filter-and-sum shape; the model transcribes the status
metrics in full and the BVI-kit block as the representative category
grouping. -/

/-- Summary metrics of one run, as computed from `df_results`. -/
structure Metrics where
  totalOrders : Nat
  releasableCount : Nat
  heldCount : Nat
  pbCount : Nat
  skippedCount : Nat
  totalHours : Rat
  releasableHours : Rat
  heldHours : Rat
  totalQty : Rat
  releasableQty : Rat
  heldQty : Rat
  totalBviKitsCount : Nat
  releasableBviKitsCount : Nat
  totalBviKitsHours : Rat
  releasableBviKitsHours : Rat
  totalBviKitsQty : Rat
  releasableBviKitsQty : Rat
deriving DecidableEq, Repr

/-- Planner codes of the BVI-kit category grouping (line 1172). -/
def bviKitPlanners : List String := ["3001", "3801"]

/-- Metrics reduction over one run's results, transcribed from
lines 1151-1180: note `held_count = total_orders - releasable_count`. -/
def computeMetrics (results : List ResultRec) : Metrics :=
  let totalOrders := results.length
  let releasableCount := (results.filter (fun r => r.status = .released)).length
  let heldCount := totalOrders - releasableCount
  let pbCount := (results.filter (fun r => r.pb)).length
  let skippedCount := (results.filter (fun r => r.status = .skipped)).length
  let totalHours := (results.map (fun r => r.hours)).sum
  let releasableHours :=
    ((results.filter (fun r => r.status = .released)).map (fun r => r.hours)).sum
  let heldHours :=
    ((results.filter (fun r => r.status = .held)).map (fun r => r.hours)).sum
  let totalQty := (results.map (fun r => r.demand)).sum
  let releasableQty :=
    ((results.filter (fun r => r.status = .released)).map (fun r => r.demand)).sum
  let heldQty :=
    ((results.filter (fun r => r.status = .held)).map (fun r => r.demand)).sum
  let bvi := results.filter (fun r => r.planner ∈ bviKitPlanners)
  let relBvi := (results.filter (fun r => r.status = .released)).filter
    (fun r => r.planner ∈ bviKitPlanners)
  { totalOrders := totalOrders
    releasableCount := releasableCount
    heldCount := heldCount
    pbCount := pbCount
    skippedCount := skippedCount
    totalHours := totalHours
    releasableHours := releasableHours
    heldHours := heldHours
    totalQty := totalQty
    releasableQty := releasableQty
    heldQty := heldQty
    totalBviKitsCount := bvi.length
    releasableBviKitsCount := relBvi.length
    totalBviKitsHours := (bvi.map (fun r => r.hours)).sum
    releasableBviKitsHours := (relBvi.map (fun r => r.hours)).sum
    totalBviKitsQty := (bvi.map (fun r => r.demand)).sum
    releasableBviKitsQty := (relBvi.map (fun r => r.demand)).sum }

/-! ## Sorting strategies (lines 436-449 and 705-725 of `AMCBDG_SQL.py`)

`sort_values` on a key list is a lexicographic sort; missing dates go
last (`na_position="last"`, also pandas' default).  The source's sort is
an unstable quicksort, so the relative order of rows equal on every key
column is unspecified; the model uses a deterministic insertion sort,
one refinement of that behaviour.  No claim depends on the order of rows
equal on all key columns. -/

/-- Key columns that appear in `get_sorting_strategies`. -/
inductive Column where
  | startDate
  | soNumber
  | demand
  | hoursCalc
  | part
  | planner
deriving DecidableEq, Repr

/-- One named sorting strategy: name, and key columns paired with their
ascending flags. -/
structure Strategy where
  name : String
  columns : List (Column × Bool)
deriving DecidableEq, Repr

/-- The fixed candidate set of orderings, `get_sorting_strategies`. -/
def getSortingStrategies : List Strategy :=
  [ ⟨"Start Date (Early First)", [(.startDate, true), (.soNumber, true)]⟩,
    ⟨"Start Date (Late First)", [(.startDate, false), (.soNumber, true)]⟩,
    ⟨"Demand (Small First)", [(.demand, true), (.startDate, true)]⟩,
    ⟨"Demand (Large First)", [(.demand, false), (.startDate, true)]⟩,
    ⟨"Hours (Quick First)", [(.hoursCalc, true), (.startDate, true)]⟩,
    ⟨"Hours (Long First)", [(.hoursCalc, false), (.startDate, true)]⟩,
    ⟨"Part Number (A-Z)", [(.part, true), (.startDate, true)]⟩,
    ⟨"Part Number (Z-A)", [(.part, false), (.startDate, true)]⟩,
    ⟨"Planner (A-Z)", [(.planner, true), (.startDate, true)]⟩,
    ⟨"Planner (Z-A)", [(.planner, false), (.startDate, true)]⟩ ]

/-- Value of one sort-key cell.  `Hours_Calc` is the precomputed column
`labor_standards.get(str(row["Part"]), 0) * row["Demand"]` (line 706). -/
inductive CellVal where
  | str (s : String)
  | num (q : Rat)
  | date (d : Option Int)
deriving DecidableEq, Repr

/-- Cell of a given key column in a given row. -/
def colVal (labor : Part → Rat) : Column → OrderRow → CellVal
  | .startDate, row => .date row.startDate
  | .soNumber, row => .str row.so
  | .demand, row => .num row.demandCell
  | .hoursCalc, row => .num (labor row.part * row.demandCell)
  | .part, row => .str row.part
  | .planner, row => .str row.planner

/-- Comparison of two cells of the same column under an ascending flag:
values compare by their natural order, flipped when descending; a missing
date sorts after everything regardless of the flag (`na_position`). -/
def cellCmp (asc : Bool) : CellVal → CellVal → Ordering
  | .str a, .str b => if asc then compare a b else compare b a
  | .num a, .num b => if asc then compare a b else compare b a
  | .date (some a), .date (some b) => if asc then compare a b else compare b a
  | .date (some _), .date none => .lt
  | .date none, .date (some _) => .gt
  | .date none, .date none => .eq
  | _, _ => .eq

/-- Lexicographic row comparison over a strategy's key columns. -/
def rowCmp (labor : Part → Rat) (cols : List (Column × Bool))
    (a b : OrderRow) : Ordering :=
  match cols with
  | [] => .eq
  | (c, asc) :: rest =>
      match cellCmp asc (colVal labor c a) (colVal labor c b) with
      | .lt => .lt
      | .gt => .gt
      | .eq => rowCmp labor rest a b

/-- Row a sorts no later than row b under a strategy. -/
def strategyLE (labor : Part → Rat) (s : Strategy) (a b : OrderRow) : Bool :=
  rowCmp labor s.columns a b ≠ .gt

/-- Insertion sort by a boolean order, the model of `sort_values`. -/
def sortByLE (le : OrderRow → OrderRow → Bool) : List OrderRow → List OrderRow
  | [] => []
  | x :: xs => insertLE le x (sortByLE le xs)
where
  insertLE (le : OrderRow → OrderRow → Bool) (x : OrderRow) :
      List OrderRow → List OrderRow
    | [] => [x]
    | y :: ys => if le x y then x :: y :: ys else y :: insertLE le x ys

/-! ## Category filter and scenario pipeline -/

/-- Category-inclusion flags of `process_single_scenario`. -/
structure Flags where
  kits : Bool
  instruments : Bool
  virtuoso : Bool
  kitSamples : Bool
deriving DecidableEq, Repr

def kitsPlanners : List String := ["3001", "3801", "5001"]
def instrumentsPlanners : List String := ["3802", "3803", "3804", "3805"]
def virtuosoPlanners : List String := ["3806"]
def kitSamplesPlanners : List String := ["KIT SAMPLES"]

/-- Filter mask of lines 682-697: an order is kept when its planner code
belongs to some enabled category. -/
def plannerSelected (flags : Flags) (row : OrderRow) : Bool :=
  (flags.kits ∧ row.planner ∈ kitsPlanners) ∨
  (flags.instruments ∧ row.planner ∈ instrumentsPlanners) ∨
  (flags.virtuoso ∧ row.planner ∈ virtuosoPlanners) ∨
  (flags.kitSamples ∧ row.planner ∈ kitSamplesPlanners)

/-- Default ordering when no strategy is passed (line 723):
`sort_values(["Start Date", "SO Number"], na_position="last")`. -/
def defaultColumns : List (Column × Bool) :=
  [(.startDate, true), (.soNumber, true)]

/-- One scenario result: the run's result records and metrics. -/
structure Scenario where
  stratName : String
  results : List ResultRec
  metrics : Metrics
deriving Repr

/-- One call of `process_single_scenario` after data loading: category
filter, sort under the strategy, run the engine against a fresh ledger,
reduce metrics. -/
def processScenario (ctx : Ctx) (flags : Flags) (strat : Option Strategy) :
    Scenario :=
  let filtered := ctx.demand.filter (plannerSelected flags)
  let cols := match strat with
    | some s => s.columns
    | none => defaultColumns
  let sorted := sortByLE (fun a b => rowCmp ctx.labor cols a b ≠ .gt) filtered
  let (_, results) := runEngine ctx sorted
  { stratName := match strat with
      | some s => s.name
      | none => "Default (Start Date)"
    results := results
    metrics := computeMetrics results }

/-! ## Strategy search (lines 1463-1549 of `AMCBDG_SQL.py`) -/

/-- Semantics of python's `max(xs, key=k)` on a nonempty list: fold that
replaces the current best only on a strictly larger key, so the first
element attaining the maximal key wins. -/
def pymax {α β : Type} [LinearOrder β] (key : α → β) : List α → Option α
  | [] => none
  | x :: xs => some (xs.foldl (fun best y => if key y > key best then y else best) x)

/-- The minmax search: one run per candidate strategy. -/
def allStrategyRuns (ctx : Ctx) (flags : Flags) : List Scenario :=
  getSortingStrategies.map (fun s => processScenario ctx flags (some s))

/-- Winner by released-order count (line 1510). -/
def bestOrdersStrategy (ctx : Ctx) (flags : Flags) : Option Scenario :=
  pymax (fun s => s.metrics.releasableCount) (allStrategyRuns ctx flags)

/-- Winner by released labor hours (line 1511). -/
def bestHoursStrategy (ctx : Ctx) (flags : Flags) : Option Scenario :=
  pymax (fun s => s.metrics.releasableHours) (allStrategyRuns ctx flags)

/-- Winner by released quantity (line 1512). -/
def bestQtyStrategy (ctx : Ctx) (flags : Flags) : Option Scenario :=
  pymax (fun s => s.metrics.releasableQty) (allStrategyRuns ctx flags)

/-! ## Schema validation (lines 556-560 of `AMCBDG_SQL.py`) -/

/-- Required columns of the Demand table. -/
def requiredColumns : List String :=
  ["SO No", "Part No", "Planner", "Start Date", "Rev Qty Due"]

/-- Diagnostic raised when required columns are missing. -/
def schemaErrorMessage (missing : List String) : String :=
  "Missing required columns in Demand table: " ++ String.intercalate ", " missing

/-- Schema check: collect the required columns absent from the Demand
table's column list and raise a single diagnostic naming them; otherwise
construction proceeds. -/
def checkSchema (cols : List String) : Except String Unit :=
  let missing := requiredColumns.filter (fun c => ¬ c ∈ cols)
  if missing.isEmpty then .ok () else .error (schemaErrorMessage missing)

/-! ## Duplicated engine of `AMCBDG_SQL_Qt6.py`

The Qt6 build carries its own copy of the allocation loop
(`ProcessingThread.process_single_scenario`, lines 777-963) and of the
metrics reduction (lines 965-1094).  The definitions below are a second,
independent transcription of that copy, over the same data model. -/

/-- Per-component body of the Qt6 copy (lines 858-901). -/
def checkStepQt (ctx : Ctx) (used : Part → Rat) (s : CState) (comp : BomRow) :
    CState :=
  match parseQty comp.qtyCell with
  | .error msg =>
      { s with allAvail := false, shorts := s.shorts ++ [.procError msg] }
  | .ok requiredQty =>
      let totalUsed := used comp.part
      let trueAvailable := ctx.stock comp.part - totalUsed
      let available := max 0 trueAvailable
      let availableAfterUsage := trueAvailable - (requiredQty : Rat)
      let willBeSufficient := trueAvailable ≥ (requiredQty : Rat)
      let reqs' := s.reqs ++ [(comp.part, requiredQty, available)]
      let needed' := listUpsert s.needed comp.part requiredQty
      if willBeSufficient then
        { s with reqs := reqs', needed := needed' }
      else
        let shortage := |availableAfterUsage|
        match resolvePo ctx.pos ctx.now comp.part shortage with
        | some po =>
            { allAvail := false, reqs := reqs', needed := needed',
              shorts := s.shorts ++
                [.withPo comp.part shortage po.poNumber (po.promised.getD 0)] }
        | none =>
            { allAvail := false, reqs := reqs', needed := needed',
              shorts := s.shorts ++
                [.noPo comp.part (requiredQty : Rat) trueAvailable shortage] }

/-- Feasibility pass of the Qt6 copy. -/
def checkComponentsQt (ctx : Ctx) (used : Part → Rat) (bom : List BomRow) :
    CState :=
  bom.foldl (checkStepQt ctx used) ⟨true, [], [], []⟩

/-- Commit loop of the Qt6 copy (lines 904-909). -/
def commitReqsQt (used : Part → Rat) (reqs : List (Part × Int × Rat)) :
    Part → Rat :=
  reqs.foldl (fun u r => updateFn u r.1 (u r.1 + (r.2.1 : Rat))) used

/-- Per-order loop body of the Qt6 copy (lines 806-963). -/
def processOrderQt (ctx : Ctx) (used : Part → Rat) (row : OrderRow) :
    (Part → Rat) × ResultRec :=
  if isSkip row then
    (used,
      { so := row.so
        part := if row.part = "nan" then "MISSING" else row.part
        planner := row.planner
        startDate := row.startDate
        pb := false
        demand := demandQty row
        hours := 0
        status := .skipped
        shortages := []
        componentsNeeded := [] })
  else
    let dq := demandQty row
    let isPb := pbFlag ctx row.part
    let bom := bomOf ctx row.so
    let laborHours := ctx.labor row.part * dq
    if bom.isEmpty then
      let totalUsed := used row.part
      let trueAvailable := ctx.stock row.part - totalUsed
      let availableAfterUsage := trueAvailable - dq
      if trueAvailable ≥ dq then
        (updateFn used row.part (used row.part + dq),
          { so := row.so, part := row.part, planner := row.planner,
            startDate := row.startDate, pb := isPb, demand := dq,
            hours := round4 laborHours, status := .released,
            shortages := [], componentsNeeded := [] })
      else
        (used,
          { so := row.so, part := row.part, planner := row.planner,
            startDate := row.startDate, pb := isPb, demand := dq,
            hours := round4 laborHours, status := .held,
            shortages := [.noPo row.part dq trueAvailable |availableAfterUsage|],
            componentsNeeded := [] })
    else
      let st := checkComponentsQt ctx used bom
      if st.allAvail then
        (commitReqsQt used st.reqs,
          { so := row.so, part := row.part, planner := row.planner,
            startDate := row.startDate, pb := isPb, demand := dq,
            hours := round4 laborHours, status := .released,
            shortages := st.shorts, componentsNeeded := st.needed })
      else
        (used,
          { so := row.so, part := row.part, planner := row.planner,
            startDate := row.startDate, pb := isPb, demand := dq,
            hours := round4 laborHours, status := .held,
            shortages := st.shorts, componentsNeeded := st.needed })

/-- Sequential run of the Qt6 copy. -/
def runFromQt (ctx : Ctx) (used : Part → Rat) (orders : List OrderRow) :
    (Part → Rat) × List ResultRec :=
  match orders with
  | [] => (used, [])
  | o :: rest =>
      let (used', r) := processOrderQt ctx used o
      let (usedF, rs) := runFromQt ctx used' rest
      (usedF, r :: rs)

/-- One complete run of the Qt6 copy. -/
def runEngineQt (ctx : Ctx) (orders : List OrderRow) :
    (Part → Rat) × List ResultRec :=
  runFromQt ctx ctx.committed orders

/-- Metrics reduction of the Qt6 copy (lines 965-995). -/
def computeMetricsQt (results : List ResultRec) : Metrics :=
  let totalOrders := results.length
  let releasableCount := (results.filter (fun r => r.status = .released)).length
  let heldCount := totalOrders - releasableCount
  let pbCount := (results.filter (fun r => r.pb)).length
  let skippedCount := (results.filter (fun r => r.status = .skipped)).length
  let totalHours := (results.map (fun r => r.hours)).sum
  let releasableHours :=
    ((results.filter (fun r => r.status = .released)).map (fun r => r.hours)).sum
  let heldHours :=
    ((results.filter (fun r => r.status = .held)).map (fun r => r.hours)).sum
  let totalQty := (results.map (fun r => r.demand)).sum
  let releasableQty :=
    ((results.filter (fun r => r.status = .released)).map (fun r => r.demand)).sum
  let heldQty :=
    ((results.filter (fun r => r.status = .held)).map (fun r => r.demand)).sum
  let bvi := results.filter (fun r => r.planner ∈ bviKitPlanners)
  let relBvi := (results.filter (fun r => r.status = .released)).filter
    (fun r => r.planner ∈ bviKitPlanners)
  { totalOrders := totalOrders
    releasableCount := releasableCount
    heldCount := heldCount
    pbCount := pbCount
    skippedCount := skippedCount
    totalHours := totalHours
    releasableHours := releasableHours
    heldHours := heldHours
    totalQty := totalQty
    releasableQty := releasableQty
    heldQty := heldQty
    totalBviKitsCount := bvi.length
    releasableBviKitsCount := relBvi.length
    totalBviKitsHours := (bvi.map (fun r => r.hours)).sum
    releasableBviKitsHours := (relBvi.map (fun r => r.hours)).sum
    totalBviKitsQty := (bvi.map (fun r => r.demand)).sum
    releasableBviKitsQty := (relBvi.map (fun r => r.demand)).sum }

/-- One call of the Qt6 `process_single_scenario` after data loading:
the category filter and sort code of the two files is line-for-line
identical (lines 711-763 of the Qt6 file), so the Qt6 pipeline differs
only in its engine and metrics copies. -/
def processScenarioQt (ctx : Ctx) (flags : Flags) (strat : Option Strategy) :
    Scenario :=
  let filtered := ctx.demand.filter (plannerSelected flags)
  let cols := match strat with
    | some s => s.columns
    | none => defaultColumns
  let sorted := sortByLE (fun a b => rowCmp ctx.labor cols a b ≠ .gt) filtered
  let (_, results) := runEngineQt ctx sorted
  { stratName := match strat with
      | some s => s.name
      | none => "Default (Start Date)"
    results := results
    metrics := computeMetricsQt results }

/-! ## Characterizations of the feasibility pass

Spec-side summaries of the engine's behaviour, proved against the
definitions above. -/

/-- One BOM line passes the read-only feasibility check against a fixed
ledger state: its quantity cell parses and the signed available quantity
covers it. -/
def lineOK (ctx : Ctx) (used : Part → Rat) (l : BomRow) : Bool :=
  match parseQty l.qtyCell with
  | .ok q => ctx.stock l.part - used l.part ≥ (q : Rat)
  | .error _ => false

/-- Required quantity of a BOM line, with 0 for an unparseable cell
(which can only feed into a Held order). -/
def bomReqD (l : BomRow) : Rat :=
  (((parseQty l.qtyCell).toOption.getD 0 : Int) : Rat)

/-- Entry appended to `component_requirements` by one BOM line, when its
quantity cell parses. -/
def reqEntry (ctx : Ctx) (used : Part → Rat) (l : BomRow) :
    Option (Part × Int × Rat) :=
  (parseQty l.qtyCell).toOption.map
    (fun q => (l.part, q, max 0 (ctx.stock l.part - used l.part)))

/-- Shortage entries contributed by one BOM line; they depend only on the
line and the fixed pre-order ledger state. -/
def lineShorts (ctx : Ctx) (used : Part → Rat) (l : BomRow) : List ShortRec :=
  match parseQty l.qtyCell with
  | .error msg => [.procError msg]
  | .ok q =>
      let ta := ctx.stock l.part - used l.part
      if ta ≥ (q : Rat) then []
      else
        match resolvePo ctx.pos ctx.now l.part |ta - (q : Rat)| with
        | some po => [.withPo l.part |ta - (q : Rat)| po.poNumber (po.promised.getD 0)]
        | none => [.noPo l.part (q : Rat) ta |ta - (q : Rat)|]

/-- Quantity of part `p` that one order takes from the ledger when it is
released: its per-line BOM requirement total, or its own demand for a
raw-material order. -/
def orderReq (ctx : Ctx) (row : OrderRow) (p : Part) : Rat :=
  if isSkip row then 0
  else if (bomOf ctx row.so).isEmpty then
    (if row.part = p then demandQty row else 0)
  else (((bomOf ctx row.so).filter (fun l => l.part = p)).map bomReqD).sum

theorem foldl_checkStep_allAvail (ctx : Ctx) (used : Part → Rat) :
    ∀ (bom : List BomRow) (s : CState),
      (bom.foldl (checkStep ctx used) s).allAvail
        = (s.allAvail && bom.all (lineOK ctx used)) := by
  intro bom
  induction bom with
  | nil => intro s; simp
  | cons l rest ih =>
      intro s
      simp only [List.foldl_cons, List.all_cons, ih]
      cases hq : parseQty l.qtyCell with
      | error msg =>
          simp [checkStep, hq, lineOK, Bool.and_assoc]
      | ok q =>
          by_cases hs : ctx.stock l.part - used l.part ≥ (q : Rat)
          · simp [checkStep, hq, hs, lineOK]
          · cases hr : resolvePo ctx.pos ctx.now l.part
                |ctx.stock l.part - used l.part - (q : Rat)| with
            | none => simp [checkStep, hq, hs, hr, lineOK]
            | some po => simp [checkStep, hq, hs, hr, lineOK]

theorem foldl_checkStep_reqs (ctx : Ctx) (used : Part → Rat) :
    ∀ (bom : List BomRow) (s : CState),
      (bom.foldl (checkStep ctx used) s).reqs
        = s.reqs ++ bom.filterMap (reqEntry ctx used) := by
  intro bom
  induction bom with
  | nil => intro s; simp
  | cons l rest ih =>
      intro s
      simp only [List.foldl_cons, List.filterMap_cons, ih]
      cases hq : parseQty l.qtyCell with
      | error msg =>
          simp [checkStep, hq, reqEntry, Except.toOption]
      | ok q =>
          by_cases hs : ctx.stock l.part - used l.part ≥ (q : Rat)
          · simp [checkStep, hq, hs, reqEntry, Except.toOption]
          · cases hr : resolvePo ctx.pos ctx.now l.part
                |ctx.stock l.part - used l.part - (q : Rat)| with
            | none => simp [checkStep, hq, hs, hr, reqEntry, Except.toOption]
            | some po => simp [checkStep, hq, hs, hr, reqEntry, Except.toOption]

theorem foldl_checkStep_shorts (ctx : Ctx) (used : Part → Rat) :
    ∀ (bom : List BomRow) (s : CState),
      (bom.foldl (checkStep ctx used) s).shorts
        = s.shorts ++ bom.flatMap (lineShorts ctx used) := by
  intro bom
  induction bom with
  | nil => intro s; simp
  | cons l rest ih =>
      intro s
      simp only [List.foldl_cons, List.flatMap_cons, ih]
      cases hq : parseQty l.qtyCell with
      | error msg =>
          simp [checkStep, hq, lineShorts]
      | ok q =>
          by_cases hs : ctx.stock l.part - used l.part ≥ (q : Rat)
          · simp [checkStep, hq, hs, lineShorts]
          · cases hr : resolvePo ctx.pos ctx.now l.part
                |ctx.stock l.part - used l.part - (q : Rat)| with
            | none => simp [checkStep, hq, hs, hr, lineShorts]
            | some po => simp [checkStep, hq, hs, hr, lineShorts]

theorem checkComponents_allAvail (ctx : Ctx) (used : Part → Rat)
    (bom : List BomRow) :
    (checkComponents ctx used bom).allAvail = bom.all (lineOK ctx used) := by
  simp [checkComponents, foldl_checkStep_allAvail]

theorem checkComponents_reqs (ctx : Ctx) (used : Part → Rat)
    (bom : List BomRow) :
    (checkComponents ctx used bom).reqs = bom.filterMap (reqEntry ctx used) := by
  simp [checkComponents, foldl_checkStep_reqs]

theorem checkComponents_shorts (ctx : Ctx) (used : Part → Rat)
    (bom : List BomRow) :
    (checkComponents ctx used bom).shorts = bom.flatMap (lineShorts ctx used) := by
  simp [checkComponents, foldl_checkStep_shorts]

theorem commitReqs_apply :
    ∀ (reqs : List (Part × Int × Rat)) (used : Part → Rat) (p : Part),
      commitReqs used reqs p
        = used p + ((reqs.filter (fun r => r.1 = p)).map
            (fun r => (r.2.1 : Rat))).sum := by
  intro reqs
  induction reqs with
  | nil => intro used p; simp [commitReqs]
  | cons r rest ih =>
      intro used p
      simp only [commitReqs, List.foldl_cons] at ih ⊢
      rw [ih]
      by_cases h : r.1 = p
      · subst h
        simp [updateFn, List.filter_cons]
        ring
      · have h2 : ¬ p = r.1 := fun hc => h hc.symm
        simp [updateFn, List.filter_cons, h, h2]

theorem filterMap_req_sum (ctx : Ctx) (used : Part → Rat) :
    ∀ (bom : List BomRow), bom.all (lineOK ctx used) = true → ∀ p,
      (((bom.filterMap (reqEntry ctx used)).filter (fun r => r.1 = p)).map
          (fun r => (r.2.1 : Rat))).sum
        = ((bom.filter (fun l => l.part = p)).map bomReqD).sum := by
  intro bom
  induction bom with
  | nil => intro _ p; simp
  | cons l rest ih =>
      intro hall p
      simp only [List.all_cons, Bool.and_eq_true] at hall
      obtain ⟨hl, hrest⟩ := hall
      cases hq : parseQty l.qtyCell with
      | error msg => simp [lineOK, hq] at hl
      | ok q =>
          by_cases h : l.part = p
          · subst h
            simp only [List.filterMap_cons, reqEntry, hq, List.filter_cons,
              bomReqD, Except.toOption, Option.map, List.map_cons, List.sum_cons,
              decide_True, Option.getD, decide_eq_true_eq, if_true]
            rw [ih hrest l.part]
          · simp [List.filterMap_cons, reqEntry, hq, List.filter_cons, h,
              Except.toOption, ih hrest p]

theorem processOrder_skip_status (ctx : Ctx) (used : Part → Rat)
    (row : OrderRow) (h : isSkip row = true) :
    (processOrder ctx used row).2.status = .skipped := by
  simp [processOrder, h]

theorem processOrder_frame (ctx : Ctx) (used : Part → Rat) (row : OrderRow)
    (h : (processOrder ctx used row).2.status ≠ .released) :
    (processOrder ctx used row).1 = used := by
  by_cases hskip : isSkip row
  · simp [processOrder, hskip]
  · by_cases hbe : (bomOf ctx row.so).isEmpty
    · by_cases hta : ctx.stock row.part - used row.part ≥ demandQty row
      · exfalso
        apply h
        simp [processOrder, hskip, hbe, hta]
      · simp [processOrder, hskip, hbe, hta]
    · by_cases hall : (checkComponents ctx used (bomOf ctx row.so)).allAvail
      · exfalso
        apply h
        simp [processOrder, hskip, hbe, hall]
      · simp [processOrder, hskip, hbe, hall]

theorem processOrder_released_iff_bom (ctx : Ctx) (used : Part → Rat)
    (row : OrderRow) (hskip : isSkip row = false)
    (hbe : (bomOf ctx row.so).isEmpty = false) :
    ((processOrder ctx used row).2.status = .released ↔
      (bomOf ctx row.so).all (lineOK ctx used) = true) := by
  by_cases hall : (checkComponents ctx used (bomOf ctx row.so)).allAvail
  · have := checkComponents_allAvail ctx used (bomOf ctx row.so)
    rw [hall] at this
    simp [processOrder, hskip, hbe, hall, this.symm]
  · have := checkComponents_allAvail ctx used (bomOf ctx row.so)
    rw [eq_false_of_ne_true (fun hc => hall hc)] at this
    simp [processOrder, hskip, hbe, hall, this.symm]

theorem processOrder_released_iff_raw (ctx : Ctx) (used : Part → Rat)
    (row : OrderRow) (hskip : isSkip row = false)
    (hbe : (bomOf ctx row.so).isEmpty = true) :
    ((processOrder ctx used row).2.status = .released ↔
      ctx.stock row.part - used row.part ≥ demandQty row) := by
  by_cases hta : ctx.stock row.part - used row.part ≥ demandQty row
  · simp [processOrder, hskip, hbe, hta]
  · simp [processOrder, hskip, hbe, hta]

theorem processOrder_used_spec (ctx : Ctx) (used : Part → Rat)
    (row : OrderRow) (p : Part) :
    (processOrder ctx used row).1 p
      = used p + (if (processOrder ctx used row).2.status = .released
          then orderReq ctx row p else 0) := by
  by_cases hskip : isSkip row
  · simp [processOrder, hskip]
  · by_cases hbe : (bomOf ctx row.so).isEmpty
    · by_cases hta : ctx.stock row.part - used row.part ≥ demandQty row
      · simp only [processOrder, hskip, Bool.false_eq_true, if_false, hbe,
          if_true, hta, ite_true, ge_iff_le]
        simp only [orderReq, hskip, Bool.false_eq_true, if_false, hbe, if_true]
        by_cases hp : row.part = p
        · subst hp
          simp [updateFn, hta]
        · have hp2 : ¬ p = row.part := fun hc => hp hc.symm
          simp [updateFn, hp, hp2, hta]
      · simp [processOrder, hskip, hbe, hta]
    · by_cases hall : (checkComponents ctx used (bomOf ctx row.so)).allAvail
      · have hall2 : (bomOf ctx row.so).all (lineOK ctx used) = true := by
          rw [← checkComponents_allAvail ctx used]
          exact hall
        simp only [processOrder, hskip, Bool.false_eq_true, if_false, hbe,
          if_true, hall, ite_true]
        simp only [orderReq, hskip, Bool.false_eq_true, if_false, hbe]
        rw [commitReqs_apply, checkComponents_reqs,
          filterMap_req_sum ctx used _ hall2 p]
      · simp [processOrder, hskip, hbe, hall]

theorem runFrom_length (ctx : Ctx) :
    ∀ (orders : List OrderRow) (used : Part → Rat),
      (runFrom ctx used orders).2.length = orders.length := by
  intro orders
  induction orders with
  | nil => intro used; simp [runFrom]
  | cons o rest ih => intro used; simp [runFrom, ih]

theorem runFrom_used_spec (ctx : Ctx) :
    ∀ (orders : List OrderRow) (used : Part → Rat) (p : Part),
      (runFrom ctx used orders).1 p
        = used p +
          (((orders.zip (runFrom ctx used orders).2).filter
              (fun x => x.2.status = .released)).map
            (fun x => orderReq ctx x.1 p)).sum := by
  intro orders
  induction orders with
  | nil => intro used p; simp [runFrom]
  | cons o rest ih =>
      intro used p
      simp only [runFrom]
      have hused := processOrder_used_spec ctx used o p
      by_cases hrel : (processOrder ctx used o).2.status = .released
      · simp only [List.zip_cons_cons, List.filter_cons, hrel, decide_True,
          if_true, List.map_cons, List.sum_cons]
        rw [ih ((processOrder ctx used o).1) p, hused]
        simp [hrel]
        ring
      · simp only [List.zip_cons_cons, List.filter_cons, hrel, decide_False]
        rw [ih ((processOrder ctx used o).1) p, hused]
        simp [hrel]


theorem filter_part_singleton (p : Part) :
    ∀ (xs : List BomRow), ((xs.map (fun l => l.part)).Nodup) →
      ∀ l rest, xs.filter (fun l => l.part = p) = l :: rest → rest = [] := by
  intro xs
  induction xs with
  | nil => simp
  | cons x t ih =>
      intro hnd l rest hf
      simp only [List.map_cons, List.nodup_cons] at hnd
      obtain ⟨hx, ht⟩ := hnd
      by_cases hp : x.part = p
      · rw [List.filter_cons_of_pos (by simpa using hp)] at hf
        have h1 : rest = t.filter (fun l => l.part = p) := (List.cons.inj hf).2.symm
        have h2 : t.filter (fun l => l.part = p) = [] := by
          rw [List.filter_eq_nil_iff]
          intro a ha
          simp only [decide_eq_true_eq]
          intro hap
          exact hx (by
            rw [hp, ← hap]
            exact List.mem_map_of_mem (fun l => l.part) ha)
        rw [h1, h2]
      · rw [List.filter_cons_of_neg (by simpa using hp)] at hf
        exact ih ht l rest hf

/-! ## Claim theorems -/

/-- C1: all-or-nothing atomicity for orders with an explicit BOM — a Held
order leaves the ledger untouched; the order is Released exactly when
every BOM line passes the feasibility check against the pre-order ledger;
and on Release every component part is decremented by its total required
quantity over the order's BOM lines. -/
theorem C1_atomicity (ctx : Ctx) (used : Part → Rat) (row : OrderRow)
    (hbom : (bomOf ctx row.so).isEmpty = false) :
    ((processOrder ctx used row).2.status = .held →
      (processOrder ctx used row).1 = used) ∧
    (isSkip row = false →
      ((processOrder ctx used row).2.status = .released ↔
        (bomOf ctx row.so).all (lineOK ctx used) = true)) ∧
    ((processOrder ctx used row).2.status = .released →
      ∀ p, (processOrder ctx used row).1 p
        = used p +
          (((bomOf ctx row.so).filter (fun l => l.part = p)).map bomReqD).sum) := by
  refine ⟨?_, ?_, ?_⟩
  · intro h
    apply processOrder_frame
    rw [h]
    simp
  · intro hskip
    exact processOrder_released_iff_bom ctx used row hskip hbom
  · intro hrel p
    have hskip : isSkip row = false := by
      by_contra hc
      have hsk : isSkip row = true := by simpa using hc
      have := processOrder_skip_status ctx used row hsk
      rw [this] at hrel
      exact absurd hrel (by simp)
    have hspec := processOrder_used_spec ctx used row p
    rw [hrel] at hspec
    simp only [eq_self_iff_true, if_true] at hspec
    rw [hspec]
    simp [orderReq, hskip, hbom]

/-- Concrete context for the C1 witness: the spec's BOM-shortage scenario
(Ledger X:2 Y:10, order O1 requires X:3 and Y:1). -/
def exCtxShort : Ctx :=
  { stock := fun p => if p = "X" then 2 else if p = "Y" then 10 else 0
    committed := fun _ => 0
    labor := fun _ => 0
    planned := [⟨"O1", "X", .valid 3⟩, ⟨"O1", "Y", .valid 1⟩]
    pos := []
    demand := []
    now := 0 }

def exRowShort : OrderRow := ⟨"O1", "K1", "3001", some 1, 1⟩

/-- Witness for C1 at a concrete input: the two-component order is Held
and the ledger is unchanged. -/
theorem C1_atomicity_witness :
    (processOrder exCtxShort exCtxShort.committed exRowShort).2.status = .held ∧
    (processOrder exCtxShort exCtxShort.committed exRowShort).1
      = exCtxShort.committed := by
  have hbom : (bomOf exCtxShort exRowShort.so).isEmpty = false := by
    simp [bomOf, exCtxShort, exRowShort]
  have h := C1_atomicity exCtxShort exCtxShort.committed exRowShort hbom
  have hheld : (processOrder exCtxShort exCtxShort.committed exRowShort).2.status
      = .held := by
    simp [processOrder, exCtxShort, exRowShort, isSkip, demandQty, bomOf,
      checkComponents, checkStep, parseQty, listUpsert, pbFlag, resolvePo]
    try norm_num
  exact ⟨hheld, h.1 hheld⟩

/-- C2: conservation — for every part and every processing sequence, the
total quantity taken by Released orders plus the available quantity left
in the ledger at the end of the run equals the available quantity seeded
at run start (stock net of committed demand). -/
theorem C2_conservation (ctx : Ctx) (orders : List OrderRow) (p : Part) :
    (((orders.zip (runEngine ctx orders).2).filter
        (fun x => x.2.status = .released)).map
      (fun x => orderReq ctx x.1 p)).sum
      + (ctx.stock p - (runEngine ctx orders).1 p)
      = ctx.stock p - ctx.committed p := by
  have h := runFrom_used_spec ctx orders ctx.committed p
  simp only [runEngine] at h ⊢
  rw [h]
  ring

/-- Concrete context for the C3 counterexample: part A has stock 5, and a
single order's BOM lists A twice, 4 each. -/
def exCtxDup : Ctx :=
  { stock := fun p => if p = "A" then 5 else 0
    committed := fun _ => 0
    labor := fun _ => 0
    planned := [⟨"1", "A", .valid 4⟩, ⟨"1", "A", .valid 4⟩]
    pos := []
    demand := []
    now := 0 }

def exRowDup : OrderRow := ⟨"1", "K", "3001", some 1, 1⟩

/-- Counterexample to C3 as stated: with part A appearing on two BOM
lines of one order (4 each, stock 5), both lines pass the feasibility
check against the unmutated ledger, the order is Released, and the
available quantity of A goes from 5 to -3. -/
theorem C3_counterexample :
    (processOrder exCtxDup exCtxDup.committed exRowDup).2.status = .released ∧
    (0 : Rat) ≤ exCtxDup.stock "A" - exCtxDup.committed "A" ∧
    exCtxDup.stock "A"
      - (processOrder exCtxDup exCtxDup.committed exRowDup).1 "A" < 0 := by
  refine ⟨?_, ?_, ?_⟩
  · simp [processOrder, exCtxDup, exRowDup, isSkip, demandQty, bomOf,
      checkComponents, checkStep, parseQty, listUpsert, pbFlag, resolvePo]
    try norm_num [updateFn]
  · simp [exCtxDup]
    try norm_num
  · simp [processOrder, exCtxDup, exRowDup, isSkip, demandQty, bomOf,
      checkComponents, checkStep, parseQty, listUpsert, pbFlag, resolvePo,
      commitReqs, updateFn]
    try norm_num [updateFn]

/-- C3 as amended: provided each component part appears on at most one of
the order's BOM lines, a Released allocation never drives the available
quantity of a part that was nonnegative before the order negative. -/
theorem C3_amended (ctx : Ctx) (used : Part → Rat) (row : OrderRow)
    (hnodup : ((bomOf ctx row.so).map (fun l => l.part)).Nodup)
    (hrel : (processOrder ctx used row).2.status = .released)
    (p : Part) (hpos : 0 ≤ ctx.stock p - used p) :
    0 ≤ ctx.stock p - (processOrder ctx used row).1 p := by
  have hskip : isSkip row = false := by
    by_contra hc
    have hsk : isSkip row = true := by simpa using hc
    have := processOrder_skip_status ctx used row hsk
    rw [this] at hrel
    exact absurd hrel (by simp)
  have hspec := processOrder_used_spec ctx used row p
  rw [hrel] at hspec
  simp only [eq_self_iff_true, if_true] at hspec
  rw [hspec]
  by_cases hbe : (bomOf ctx row.so).isEmpty
  · have hta := (processOrder_released_iff_raw ctx used row hskip hbe).1 hrel
    simp only [orderReq, hskip, Bool.false_eq_true, if_false, hbe, if_true]
    by_cases hp : row.part = p
    · subst hp
      have hite : (if row.part = row.part then demandQty row else 0)
          = demandQty row := if_pos rfl
      rw [hite]
      linarith
    · simp only [hp, if_false]
      linarith
  · have hall := (processOrder_released_iff_bom ctx used row hskip
      (by simpa using hbe)).1 hrel
    simp only [orderReq, hskip, Bool.false_eq_true, if_false, hbe, if_false]
    cases hfilter : (bomOf ctx row.so).filter (fun l => l.part = p) with
    | nil =>
        simp only [List.map_nil, List.sum_nil, add_zero]
        linarith
    | cons l rest =>
        have hrest : rest = [] :=
          filter_part_singleton p (bomOf ctx row.so) hnodup l rest hfilter
        subst hrest
        have hlmem : l ∈ (bomOf ctx row.so).filter (fun l => l.part = p) := by
          rw [hfilter]; exact List.mem_singleton_self l
        rw [List.mem_filter] at hlmem
        obtain ⟨hlbom, hlp⟩ := hlmem
        have hlp2 : l.part = p := by simpa using hlp
        have hlok : lineOK ctx used l = true := by
          rw [List.all_eq_true] at hall
          exact hall l hlbom
        simp only [lineOK] at hlok
        cases hq : parseQty l.qtyCell with
        | error msg => rw [hq] at hlok; simp at hlok
        | ok q =>
            rw [hq] at hlok
            simp only [ge_iff_le, decide_eq_true_eq] at hlok
            simp only [List.map_cons, List.map_nil, List.sum_cons,
              List.sum_nil, add_zero, bomReqD, hq, Except.toOption,
              Option.getD_some]
            rw [hlp2] at hlok
            linarith

/-- Witness for C3 as amended: the spec's single raw-material scenario
(Ledger A:10, one order needs 4 of A, no BOM) is Released and leaves a
nonnegative ledger. -/
def exCtxRaw : Ctx :=
  { stock := fun p => if p = "A" then 10 else 0
    committed := fun _ => 0
    labor := fun _ => 0
    planned := []
    pos := []
    demand := []
    now := 0 }

def exRowRaw : OrderRow := ⟨"1", "A", "3001", some 1, 4⟩

theorem C3_amended_witness :
    0 ≤ exCtxRaw.stock "A"
      - (processOrder exCtxRaw exCtxRaw.committed exRowRaw).1 "A" := by
  apply C3_amended exCtxRaw exCtxRaw.committed exRowRaw
  · simp [bomOf, exCtxRaw]
  · simp [processOrder, exCtxRaw, exRowRaw, isSkip, demandQty, bomOf,
      pbFlag, updateFn]
    try norm_num
  · simp [exCtxRaw]
    try norm_num


/-- Date order on PO rows used to state that `df_pos` arrives pre-sorted
ascending by promised date (the loader's ORDER BY, line 382 of the Qt6
file and line 375 of `AMCBDG_SQL.py`). -/
def poDateLE (a b : PoRow) : Prop := a.promised.getD 0 ≤ b.promised.getD 0

instance : DecidableRel poDateLE := fun a b => by
  unfold poDateLE
  infer_instance

/-- Whether a shortage entry carries a resolving-PO reference. -/
def hasPoRef : ShortRec → Bool
  | .withPo _ _ _ _ => true
  | _ => false

theorem find?_first {α : Type} (p : α → Bool) :
    ∀ (l : List α) (x : α), l.find? p = some x →
      ∃ pre suf, l = pre ++ x :: suf ∧ (∀ y ∈ pre, p y = false) ∧ p x = true := by
  intro l
  induction l with
  | nil => intro x h; simp [List.find?] at h
  | cons a t ih =>
      intro x h
      by_cases hp : p a = true
      · rw [List.find?_cons_of_pos _ hp] at h
        obtain rfl : a = x := by injection h
        exact ⟨[], t, rfl, by simp, hp⟩
      · rw [List.find?_cons_of_neg _ (by simpa using hp)] at h
        obtain ⟨pre, suf, hdec, hpre, hx⟩ := ih x h
        refine ⟨a :: pre, suf, by rw [hdec]; simp, ?_, hx⟩
        intro y hy
        rcases List.mem_cons.1 hy with rfl | hy2
        · simpa using hp
        · exact hpre y hy2

/-- C4 as amended: the first-fit shortage resolution holds for failing
components resolved through `resolvePo` (the explicit-BOM path): on a
supply list sorted ascending by promised date, the returned record is an
eligible (right part, date not past) record covering the shortfall, and
no eligible covering record has an earlier date; when no record
qualifies, `none` is returned.  An order with no BOM rows, however, never
receives a supply reference: its shortage is always reported without
one. -/
theorem C4_amended :
    (∀ (pos : List PoRow) (now : Int) (part : Part) (sf : Rat),
      pos.Pairwise poDateLE →
      (∀ m, resolvePo pos now part sf = some m →
        m.part = part ∧ dateGE m.promised now = true ∧ m.qtyDue ≥ sf ∧
        ∀ r ∈ pos, r.part = part → dateGE r.promised now = true →
          r.qtyDue ≥ sf → m.promised.getD 0 ≤ r.promised.getD 0) ∧
      (resolvePo pos now part sf = none →
        ∀ r ∈ pos, r.part = part → dateGE r.promised now = true →
          ¬ (r.qtyDue ≥ sf))) ∧
    (∀ (ctx : Ctx) (used : Part → Rat) (row : OrderRow),
      (bomOf ctx row.so).isEmpty = true →
      ∀ sh ∈ (processOrder ctx used row).2.shortages, hasPoRef sh = false) := by
  constructor
  · intro pos now part sf hsort
    constructor
    · intro m hm
      have hsortf : (pos.filter
          (fun po => po.part = part ∧ dateGE po.promised now)).Pairwise poDateLE :=
        List.Pairwise.filter _ hsort
      obtain ⟨pre, suf, hdec, hpre, hpm⟩ := find?_first _ _ m hm
      have hmelig : m ∈ pos.filter
          (fun po => po.part = part ∧ dateGE po.promised now) := by
        rw [hdec]
        exact List.mem_append_right pre (List.mem_cons_self m suf)
      have hmelig2 := (List.mem_filter.1 hmelig).2
      simp only [Bool.decide_and, Bool.and_eq_true, decide_eq_true_eq] at hmelig2
      refine ⟨hmelig2.1, hmelig2.2, by simpa using hpm, ?_⟩
      intro r hr hrp hrd hrq
      have hrelig : r ∈ pos.filter
          (fun po => po.part = part ∧ dateGE po.promised now) := by
        rw [List.mem_filter]
        exact ⟨hr, by simp [hrp, hrd]⟩
      rw [hdec] at hrelig hsortf
      rcases List.mem_append.1 hrelig with hrpre | hrmid
      · exact absurd (by simpa using hrq) (by simpa using hpre r hrpre)
      · rcases List.mem_cons.1 hrmid with rfl | hrsuf
        · exact le_refl _
        · have := (List.pairwise_append.1 hsortf).2.1
          exact (List.pairwise_cons.1 this).1 r hrsuf
    · intro hnone r hr hrp hrd hrq
      have hrelig : r ∈ pos.filter
          (fun po => po.part = part ∧ dateGE po.promised now) := by
        rw [List.mem_filter]
        exact ⟨hr, by simp [hrp, hrd]⟩
      have := List.find?_eq_none.1 hnone r hrelig
      exact this (by simpa using hrq)
  · intro ctx used row hbe sh hsh
    by_cases hskip : isSkip row
    · simp [processOrder, hskip] at hsh
    · by_cases hta : ctx.stock row.part - used row.part ≥ demandQty row
      · simp [processOrder, hskip, hbe, hta] at hsh
      · simp [processOrder, hskip, hbe, hta] at hsh
        rw [hsh]
        simp [hasPoRef]

/-- Concrete context for the C4 counterexample: an order with no BOM rows
is short 5 of part A while an eligible future PO for 9 units exists. -/
def exCtxNoBom : Ctx :=
  { stock := fun _ => 0
    committed := fun _ => 0
    labor := fun _ => 0
    planned := []
    pos := [⟨"P9", "A", 9, some 20⟩]
    demand := []
    now := 7 }

def exRowNoBom : OrderRow := ⟨"1", "A", "3001", some 1, 5⟩

/-- Counterexample to C4 as stated: for the implicit single-part
requirement of an order with no BOM, the engine reports the shortage with
no supply reference even though the resolver's search, run on the same
inputs, returns a covering future record. -/
theorem C4_counterexample :
    (processOrder exCtxNoBom exCtxNoBom.committed exRowNoBom).2.shortages
      = [.noPo "A" 5 0 5] ∧
    resolvePo exCtxNoBom.pos exCtxNoBom.now "A" 5
      = some ⟨"P9", "A", 9, some 20⟩ := by
  constructor
  · simp [processOrder, exCtxNoBom, exRowNoBom, isSkip, demandQty, bomOf,
      pbFlag]
    try norm_num
  · simp [resolvePo, exCtxNoBom, dateGE]
    try norm_num

/-- The spec's first-fit example list: supply for part A of 9 at day 5,
3 at day 10 and 5 at day 20, sorted ascending by date; with now = 7 the
day-5 record is past. -/
def exPos4 : List PoRow :=
  [⟨"P1", "A", 9, some 5⟩, ⟨"P2", "A", 3, some 10⟩, ⟨"P3", "A", 5, some 20⟩]

/-- Witness for C4 as amended at the spec's concrete example: with
shortfall 5 the resolver returns the day-20 record, every eligible
covering record is no earlier than day 20, and a no-BOM order's
shortages carry no supply reference. -/
theorem C4_amended_witness :
    resolvePo exPos4 7 "A" 5 = some ⟨"P3", "A", 5, some 20⟩ ∧
    (∀ r ∈ exPos4, r.part = "A" → dateGE r.promised 7 = true →
      r.qtyDue ≥ 5 → (20 : Int) ≤ r.promised.getD 0) ∧
    (∀ sh ∈ (processOrder exCtxNoBom exCtxNoBom.committed exRowNoBom).2.shortages,
      hasPoRef sh = false) := by
  have heval : resolvePo exPos4 7 "A" 5 = some ⟨"P3", "A", 5, some 20⟩ := by
    simp [resolvePo, exPos4, dateGE]
    try norm_num
  refine ⟨heval, ?_, ?_⟩
  · have h := (C4_amended.1 exPos4 7 "A" 5 (by decide)).1
      ⟨"P3", "A", 5, some 20⟩ heval
    intro r hr hrp hrd hrq
    exact h.2.2.2 r hr hrp hrd hrq
  · exact C4_amended.2 exCtxNoBom exCtxNoBom.committed exRowNoBom
      (by simp [bomOf, exCtxNoBom])


theorem pymax_spec {α β : Type} [LinearOrder β] (key : α → β) :
    ∀ (xs : List α) (x : α),
      ∃ m, pymax key (x :: xs) = some m ∧
        (∀ y ∈ x :: xs, key y ≤ key m) ∧
        ∃ l1 l2, x :: xs = l1 ++ m :: l2 ∧ ∀ y ∈ l1, key y < key m := by
  intro xs
  induction xs with
  | nil =>
      intro a
      exact ⟨a, rfl, by simp, [], [], rfl, by simp⟩
  | cons b ys ih =>
      intro a
      by_cases hab : key b > key a
      · have hstep : pymax key (a :: b :: ys) = pymax key (b :: ys) := by
          simp [pymax, List.foldl_cons, hab]
        obtain ⟨m, hm, hmax, l1, l2, hdec, hlt⟩ := ih b
        have hbm : key b ≤ key m := hmax b (List.mem_cons_self b ys)
        refine ⟨m, by rw [hstep]; exact hm, ?_, ?_⟩
        · intro z hz
          rcases List.mem_cons.1 hz with rfl | hz2
          · exact le_trans (le_of_lt hab) hbm
          · exact hmax z hz2
        · refine ⟨a :: l1, l2, by rw [List.cons_append, ← hdec], ?_⟩
          intro z hz
          rcases List.mem_cons.1 hz with rfl | hz2
          · exact lt_of_lt_of_le hab hbm
          · exact hlt z hz2
      · have hstep : pymax key (a :: b :: ys) = pymax key (a :: ys) := by
          simp [pymax, List.foldl_cons, hab]
        obtain ⟨m, hm, hmax, l1, l2, hdec, hlt⟩ := ih a
        have ham : key a ≤ key m := hmax a (List.mem_cons_self a ys)
        refine ⟨m, by rw [hstep]; exact hm, ?_, ?_⟩
        · intro z hz
          rcases List.mem_cons.1 hz with rfl | hz2
          · exact ham
          · rcases List.mem_cons.1 hz2 with rfl | hz3
            · exact le_trans (le_of_not_lt hab) ham
            · exact hmax z (List.mem_cons_of_mem a hz3)
        · cases l1 with
          | nil =>
              simp only [List.nil_append] at hdec
              have h1 : a = m := (List.cons.inj hdec).1
              refine ⟨[], b :: ys, by rw [← h1]; simp, by simp⟩
          | cons c t =>
              rw [List.cons_append] at hdec
              have h1 : a = c := (List.cons.inj hdec).1
              have h2 : ys = t ++ m :: l2 := (List.cons.inj hdec).2
              have hcm : key c < key m := hlt c (List.mem_cons_self c t)
              have ham2 : key a < key m := by rw [h1]; exact hcm
              refine ⟨a :: b :: t, l2, by rw [h2]; simp, ?_⟩
              intro z hz
              rcases List.mem_cons.1 hz with rfl | hz2
              · exact ham2
              · rcases List.mem_cons.1 hz2 with rfl | hz3
                · exact lt_of_le_of_lt (le_of_not_lt hab) ham2
                · exact hlt z (List.mem_cons_of_mem c hz3)

/-- C5: argmax correctness of the strategy search — each of the three
winners (by released-order count, released hours, released quantity)
attains the maximum of its objective over all evaluated orderings, and
every ordering evaluated before the winner scores strictly below it
(python's max keeps the first maximal element). -/
theorem C5_argmax (ctx : Ctx) (flags : Flags) :
    ∃ bo bh bq,
      bestOrdersStrategy ctx flags = some bo ∧
      bestHoursStrategy ctx flags = some bh ∧
      bestQtyStrategy ctx flags = some bq ∧
      (∀ s ∈ allStrategyRuns ctx flags,
        s.metrics.releasableCount ≤ bo.metrics.releasableCount) ∧
      (∀ s ∈ allStrategyRuns ctx flags,
        s.metrics.releasableHours ≤ bh.metrics.releasableHours) ∧
      (∀ s ∈ allStrategyRuns ctx flags,
        s.metrics.releasableQty ≤ bq.metrics.releasableQty) ∧
      (∃ l1 l2, allStrategyRuns ctx flags = l1 ++ bo :: l2 ∧
        ∀ s ∈ l1, s.metrics.releasableCount < bo.metrics.releasableCount) ∧
      (∃ l1 l2, allStrategyRuns ctx flags = l1 ++ bh :: l2 ∧
        ∀ s ∈ l1, s.metrics.releasableHours < bh.metrics.releasableHours) ∧
      (∃ l1 l2, allStrategyRuns ctx flags = l1 ++ bq :: l2 ∧
        ∀ s ∈ l1, s.metrics.releasableQty < bq.metrics.releasableQty) := by
  cases hruns : allStrategyRuns ctx flags with
  | nil =>
      exact absurd hruns (by simp [allStrategyRuns, getSortingStrategies])
  | cons x xs =>
      obtain ⟨bo, hbo, hbomax, hbodec⟩ :=
        pymax_spec (fun s : Scenario => s.metrics.releasableCount) xs x
      obtain ⟨bh, hbh, hbhmax, hbhdec⟩ :=
        pymax_spec (fun s : Scenario => s.metrics.releasableHours) xs x
      obtain ⟨bq, hbq, hbqmax, hbqdec⟩ :=
        pymax_spec (fun s : Scenario => s.metrics.releasableQty) xs x
      refine ⟨bo, bh, bq, ?_, ?_, ?_, ?_, ?_, ?_, ?_, ?_, ?_⟩
      · rw [bestOrdersStrategy, hruns]; exact hbo
      · rw [bestHoursStrategy, hruns]; exact hbh
      · rw [bestQtyStrategy, hruns]; exact hbq
      · exact hbomax
      · exact hbhmax
      · exact hbqmax
      · exact hbodec
      · exact hbhdec
      · exact hbqdec


theorem rowCmp_pair (labor : Part → Rat) (c : Column) (asc : Bool)
    (c2 : Column) (asc2 : Bool) (a b : OrderRow)
    (h : cellCmp asc (colVal labor c a) (colVal labor c b) = .eq) :
    rowCmp labor [(c, asc), (c2, asc2)] a b
      = cellCmp asc2 (colVal labor c2 a) (colVal labor c2 b) := by
  simp only [rowCmp, h]
  cases cellCmp asc2 (colVal labor c2 a) (colVal labor c2 b) <;> rfl

/-- C6 as amended: every strategy in the fixed candidate set has exactly
two key columns, and ties on the primary column are decided by the
secondary column ascending — which is the order id (SO Number) only for
the two Start Date strategies, and the Start Date for the other eight;
order id is not a tie-break key for those eight. -/
theorem C6_amended :
    ∀ s ∈ getSortingStrategies, ∃ c asc c2,
      s.columns = [(c, asc), (c2, true)] ∧
      ((c = .startDate ∧ c2 = .soNumber) ∨ (c ≠ .startDate ∧ c2 = .startDate)) ∧
      ∀ (labor : Part → Rat) (a b : OrderRow),
        cellCmp asc (colVal labor c a) (colVal labor c b) = .eq →
        rowCmp labor s.columns a b
          = cellCmp true (colVal labor c2 a) (colVal labor c2 b) := by
  intro s hs
  fin_cases hs <;>
    exact ⟨_, _, _, rfl, by simp,
      fun labor a b h => rowCmp_pair labor _ _ _ _ a b h⟩

/-- Strategy and rows of the C6 counterexample. -/
def exStratDemand : Strategy :=
  ⟨"Demand (Small First)", [(.demand, true), (.startDate, true)]⟩

def exRowA : OrderRow := ⟨"1", "P1", "3001", some 2, 5⟩
def exRowB : OrderRow := ⟨"2", "P2", "3001", some 1, 5⟩

/-- Counterexample to C6 as stated: under the Demand (Small First)
strategy of the candidate set, two orders with equal demand (the primary
key) are ordered by start date, which here reverses the ascending order
of their ids: the output is [id 2, id 1]. -/
theorem C6_counterexample :
    exStratDemand ∈ getSortingStrategies ∧
    exRowA.demandCell = exRowB.demandCell ∧
    compare exRowA.so exRowB.so = .lt ∧
    sortByLE (strategyLE (fun _ => 0) exStratDemand) [exRowA, exRowB]
      = [exRowB, exRowA] := by
  refine ⟨by simp [getSortingStrategies, exStratDemand], by norm_num [exRowA, exRowB], by decide, ?_⟩
  have hd : compare (5 : Rat) 5 = Ordering.eq := by
    rw [compare_eq_iff_eq]
  have hdate : compare (2 : Int) (1 : Int) = Ordering.gt := by decide
  simp [sortByLE, sortByLE.insertLE, strategyLE, rowCmp, cellCmp, colVal,
    exStratDemand, exRowA, exRowB, hd, hdate]

/-- C7: error containment — the engine always produces exactly one result
per order; an order one of whose BOM quantity cells fails to parse is
Held with a diagnostic entry carrying the failure message, and processing
continues; and the schema check succeeds exactly when every required
column is present, otherwise failing with a single diagnostic naming the
missing columns. -/
theorem C7_error_containment :
    (∀ (ctx : Ctx) (used : Part → Rat) (orders : List OrderRow),
      (runFrom ctx used orders).2.length = orders.length) ∧
    (∀ (ctx : Ctx) (used : Part → Rat) (row : OrderRow) (l : BomRow)
        (msg : String),
      isSkip row = false → l ∈ bomOf ctx row.so → l.qtyCell = .invalid msg →
      (processOrder ctx used row).2.status = .held ∧
      ShortRec.procError msg ∈ (processOrder ctx used row).2.shortages) ∧
    (∀ cols : List String,
      (checkSchema cols = .ok () ↔ ∀ c ∈ requiredColumns, c ∈ cols) ∧
      (¬ (∀ c ∈ requiredColumns, c ∈ cols) →
        checkSchema cols
          = .error (schemaErrorMessage
              (requiredColumns.filter (fun c => ¬ c ∈ cols))))) := by
  refine ⟨?_, ?_, ?_⟩
  · intro ctx used orders
    exact runFrom_length ctx orders used
  · intro ctx used row l msg hskip hl hcell
    have hbe : (bomOf ctx row.so).isEmpty = false := by
      cases hb : bomOf ctx row.so with
      | nil => rw [hb] at hl; simp at hl
      | cons a t => simp [hb]
    have hlineBad : lineOK ctx used l = false := by
      simp [lineOK, parseQty, hcell]
    have hnotall : (bomOf ctx row.so).all (lineOK ctx used) = false := by
      rw [List.all_eq_false]
      exact ⟨l, hl, by simp [hlineBad]⟩
    have hall : (checkComponents ctx used (bomOf ctx row.so)).allAvail = false := by
      rw [checkComponents_allAvail, hnotall]
    have hheld : (processOrder ctx used row).2.status = .held := by
      simp [processOrder, hskip, hbe, hall]
    refine ⟨hheld, ?_⟩
    have hshorts : (processOrder ctx used row).2.shortages
        = (checkComponents ctx used (bomOf ctx row.so)).shorts := by
      simp [processOrder, hskip, hbe, hall]
    rw [hshorts, checkComponents_shorts]
    have hmem : ShortRec.procError msg ∈ lineShorts ctx used l := by
      simp [lineShorts, parseQty, hcell]
    exact List.mem_flatMap.2 ⟨l, hl, hmem⟩
  · intro cols
    have hiff : (requiredColumns.filter (fun c => ¬ c ∈ cols)).isEmpty = true
        ↔ (∀ c ∈ requiredColumns, c ∈ cols) := by
      rw [List.isEmpty_iff, List.filter_eq_nil_iff]
      simp
    constructor
    · constructor
      · intro hok
        rw [← hiff]
        by_contra hne2
        have hne : (requiredColumns.filter (fun c => ¬ c ∈ cols)).isEmpty
            = false := eq_false_of_ne_true hne2
        simp only [checkSchema] at hok
        rw [hne] at hok
        simp at hok
      · intro hall
        have htrue := hiff.2 hall
        simp only [checkSchema]
        rw [htrue]
        simp
    · intro hnall
      have hne : (requiredColumns.filter (fun c => ¬ c ∈ cols)).isEmpty
          = false :=
        eq_false_of_ne_true (fun h => hnall (hiff.1 h))
      simp only [checkSchema]
      rw [hne]
      simp

/-- Concrete context for the C7 witness: one BOM line whose quantity cell
raises on parse. -/
def exCtxBad : Ctx :=
  { stock := fun _ => 0
    committed := fun _ => 0
    labor := fun _ => 0
    planned := [⟨"1", "A", .invalid "boom"⟩]
    pos := []
    demand := []
    now := 0 }

def exRowBad : OrderRow := ⟨"1", "K", "3001", some 1, 1⟩

theorem C7_witness :
    (processOrder exCtxBad exCtxBad.committed exRowBad).2.status = .held ∧
    ShortRec.procError "boom"
      ∈ (processOrder exCtxBad exCtxBad.committed exRowBad).2.shortages ∧
    checkSchema ["SO No"]
      = .error (schemaErrorMessage
          ["Part No", "Planner", "Start Date", "Rev Qty Due"]) := by
  have h := C7_error_containment
  have hb := h.2.1 exCtxBad exCtxBad.committed exRowBad ⟨"1", "A", .invalid "boom"⟩
    "boom" (by simp [isSkip, exRowBad]; try norm_num)
    (by simp [bomOf, exCtxBad, exRowBad]) rfl
  refine ⟨hb.1, hb.2, ?_⟩
  have hc := (h.2.2 ["SO No"]).2 (by decide)
  have hfilter : requiredColumns.filter (fun c => ¬ c ∈ ["SO No"])
      = ["Part No", "Planner", "Start Date", "Rev Qty Due"] := by decide
  rw [hfilter] at hc
  exact hc


/-- Witness for C6 as amended at the first strategy of the candidate
set. -/
theorem C6_amended_witness :
    ∃ c asc c2,
      (⟨"Start Date (Early First)",
        [(Column.startDate, true), (Column.soNumber, true)]⟩ : Strategy).columns
        = [(c, asc), (c2, true)] ∧
      ((c = .startDate ∧ c2 = .soNumber) ∨
        (c ≠ .startDate ∧ c2 = .startDate)) ∧
      ∀ (labor : Part → Rat) (a b : OrderRow),
        cellCmp asc (colVal labor c a) (colVal labor c b) = .eq →
        rowCmp labor (⟨"Start Date (Early First)",
            [(Column.startDate, true), (Column.soNumber, true)]⟩ : Strategy).columns
            a b
          = cellCmp true (colVal labor c2 a) (colVal labor c2 b) :=
  C6_amended
    ⟨"Start Date (Early First)",
      [(Column.startDate, true), (Column.soNumber, true)]⟩
    (by simp [getSortingStrategies])

/-- C8: signed shortfall arithmetic — for a BOM line whose quantity cell
parses, the feasibility comparison uses the signed available quantity
stock minus already-used (never clamped), and when the line fails, the
appended shortage entry reports shortfall = required minus that signed
available value (the no-PO entry also carries the signed value itself). -/
theorem C8_signed_shortfall (ctx : Ctx) (used : Part → Rat) (s : CState)
    (l : BomRow) (q : Int) (hq : parseQty l.qtyCell = .ok q)
    (hs : s.allAvail = true) :
    ((checkStep ctx used s l).allAvail = true ↔
      ctx.stock l.part - used l.part ≥ (q : Rat)) ∧
    (ctx.stock l.part - used l.part < (q : Rat) →
      ∃ rec, (checkStep ctx used s l).shorts = s.shorts ++ [rec] ∧
        (rec = .noPo l.part (q : Rat) (ctx.stock l.part - used l.part)
            ((q : Rat) - (ctx.stock l.part - used l.part)) ∨
         ∃ po, resolvePo ctx.pos ctx.now l.part
              ((q : Rat) - (ctx.stock l.part - used l.part)) = some po ∧
           rec = .withPo l.part
              ((q : Rat) - (ctx.stock l.part - used l.part))
              po.poNumber (po.promised.getD 0))) := by
  have habs : ctx.stock l.part - used l.part < (q : Rat) →
      |ctx.stock l.part - used l.part - (q : Rat)|
        = (q : Rat) - (ctx.stock l.part - used l.part) := by
    intro h
    rw [abs_of_neg (by linarith)]
    ring
  by_cases hta : ctx.stock l.part - used l.part ≥ (q : Rat)
  · constructor
    · simp [checkStep, hq, hta, hs]
    · intro hlt
      exact absurd hta (not_le.2 hlt)
  · have hlt : ctx.stock l.part - used l.part < (q : Rat) := lt_of_not_ge hta
    constructor
    · cases hr : resolvePo ctx.pos ctx.now l.part
          |ctx.stock l.part - used l.part - (q : Rat)| with
      | none =>
          rw [habs hlt] at hr
          simp [checkStep, hq, hta, habs hlt, hr, hlt, not_le.2 hlt]
      | some po =>
          rw [habs hlt] at hr
          simp [checkStep, hq, hta, habs hlt, hr, hlt, not_le.2 hlt]
    · intro _
      cases hr : resolvePo ctx.pos ctx.now l.part
          |ctx.stock l.part - used l.part - (q : Rat)| with
      | none =>
          rw [habs hlt] at hr
          refine ⟨.noPo l.part (q : Rat) (ctx.stock l.part - used l.part)
            ((q : Rat) - (ctx.stock l.part - used l.part)), ?_, Or.inl rfl⟩
          simp [checkStep, hq, hta, habs hlt, hr]
      | some po =>
          rw [habs hlt] at hr
          refine ⟨.withPo l.part ((q : Rat) - (ctx.stock l.part - used l.part))
            po.poNumber (po.promised.getD 0), ?_, Or.inr ⟨po, hr, rfl⟩⟩
          simp [checkStep, hq, hta, habs hlt, hr]

/-- Concrete inputs for the C8 witness: part A has stock 0 with 3 already
used, so the signed available quantity is -3; a required quantity of 2
yields shortfall 5 = 2 - (-3). -/
def exCtxC8 : Ctx :=
  { stock := fun _ => 0
    committed := fun _ => 0
    labor := fun _ => 0
    planned := []
    pos := []
    demand := []
    now := 0 }

def exUsedC8 : Part → Rat := fun p => if p = "A" then 3 else 0

def exLineC8 : BomRow := ⟨"1", "A", .valid 2⟩

theorem C8_signed_shortfall_witness :
    (checkStep exCtxC8 exUsedC8 ⟨true, [], [], []⟩ exLineC8).shorts
      = [ShortRec.noPo "A" 2 (-3) 5] := by
  have h := (C8_signed_shortfall exCtxC8 exUsedC8 ⟨true, [], [], []⟩ exLineC8 2
    rfl rfl).2 (by norm_num [exCtxC8, exUsedC8, exLineC8])
  obtain ⟨rec, hsh, hcase⟩ := h
  rcases hcase with hrec | ⟨po, hpo, hrec⟩
  · rw [hsh, hrec]
    norm_num [exCtxC8, exUsedC8, exLineC8]
  · exfalso
    simp [resolvePo, exCtxC8] at hpo

theorem status_partition_length (results : List ResultRec) :
    (results.filter (fun r => r.status = .released)).length
      + (results.filter (fun r => r.status = .held)).length
      + (results.filter (fun r => r.status = .skipped)).length
      = results.length := by
  induction results with
  | nil => simp
  | cons r t ih =>
      cases hst : r.status <;>
        simp [List.filter_cons, hst] <;> omega

theorem status_partition_sum (f : ResultRec → Rat) (results : List ResultRec) :
    ((results.filter (fun r => r.status = .released)).map f).sum
      + ((results.filter (fun r => r.status = .held)).map f).sum
      + ((results.filter (fun r => r.status = .skipped)).map f).sum
      = (results.map f).sum := by
  induction results with
  | nil => simp
  | cons r t ih =>
      cases hst : r.status <;>
        simp [List.filter_cons, hst] <;> linarith

/-- C9 as amended: the released count plus the held count equals the
total, but the held count absorbs Skipped orders: it equals the number of
Held results plus the number of Skipped results.  The hours and quantity
groupings, in contrast, filter by exact status, so the total splits as
released + held + skipped there. -/
theorem C9_amended (results : List ResultRec) :
    (computeMetrics results).releasableCount + (computeMetrics results).heldCount
        = (computeMetrics results).totalOrders ∧
    (computeMetrics results).heldCount
        = (results.filter (fun r => r.status = .held)).length
          + (results.filter (fun r => r.status = .skipped)).length ∧
    (computeMetrics results).skippedCount
        = (results.filter (fun r => r.status = .skipped)).length ∧
    (computeMetrics results).releasableHours
        = ((results.filter (fun r => r.status = .released)).map
            (fun r => r.hours)).sum ∧
    (computeMetrics results).heldHours
        = ((results.filter (fun r => r.status = .held)).map
            (fun r => r.hours)).sum ∧
    (computeMetrics results).totalHours
        = (computeMetrics results).releasableHours
          + (computeMetrics results).heldHours
          + ((results.filter (fun r => r.status = .skipped)).map
              (fun r => r.hours)).sum ∧
    (computeMetrics results).releasableQty
        = ((results.filter (fun r => r.status = .released)).map
            (fun r => r.demand)).sum ∧
    (computeMetrics results).heldQty
        = ((results.filter (fun r => r.status = .held)).map
            (fun r => r.demand)).sum ∧
    (computeMetrics results).totalQty
        = (computeMetrics results).releasableQty
          + (computeMetrics results).heldQty
          + ((results.filter (fun r => r.status = .skipped)).map
              (fun r => r.demand)).sum := by
  have hlen := status_partition_length results
  have hrel_le : (results.filter (fun r => r.status = .released)).length
      ≤ results.length := List.length_filter_le _ _
  refine ⟨?_, ?_, rfl, rfl, rfl, ?_, rfl, rfl, ?_⟩
  · simp only [computeMetrics]
    omega
  · simp only [computeMetrics]
    omega
  · simp only [computeMetrics]
    have := status_partition_sum (fun r => r.hours) results
    linarith
  · simp only [computeMetrics]
    have := status_partition_sum (fun r => r.demand) results
    linarith

/-- Context and order of the C9 counterexample: a single order with a
missing part number is Skipped, yet counted in `held_count`. -/
def exCtxEmpty : Ctx :=
  { stock := fun _ => 0
    committed := fun _ => 0
    labor := fun _ => 0
    planned := []
    pos := []
    demand := []
    now := 0 }

def exRowMissing : OrderRow := ⟨"1", "nan", "3001", some 1, 5⟩

/-- Counterexample to C9 as stated: the run holding exactly one Skipped
order reports a held-order count of 1 even though no result has status
Held. -/
theorem C9_counterexample :
    (computeMetrics (runEngine exCtxEmpty [exRowMissing]).2).heldCount = 1 ∧
    ((runEngine exCtxEmpty [exRowMissing]).2.filter
        (fun r => r.status = .held)).length = 0 := by
  constructor <;>
    simp [computeMetrics, runEngine, runFrom, processOrder, exCtxEmpty,
      exRowMissing, isSkip, demandQty]

theorem processOrderQt_eq : processOrderQt = processOrder := by
  funext ctx used row
  rfl

theorem runFromQt_eq : runFromQt = runFrom := by
  funext ctx used orders
  induction orders generalizing used with
  | nil => rfl
  | cons o rest ih =>
      simp only [runFromQt, runFrom, processOrderQt_eq, ih]

theorem computeMetricsQt_eq : computeMetricsQt = computeMetrics := by
  funext results
  rfl

/-- C10: engine equivalence — on identical input relations, sorting
strategy and category flags, the duplicated allocation loop and metrics
reduction of `AMCBDG_SQL_Qt6.py` produce exactly the per-order results
and run metrics of `AMCBDG_SQL.py`, both per order and per scenario. -/
theorem C10_engine_equivalence :
    (∀ (ctx : Ctx) (used : Part → Rat) (row : OrderRow),
      processOrderQt ctx used row = processOrder ctx used row) ∧
    (∀ (ctx : Ctx) (orders : List OrderRow),
      runEngineQt ctx orders = runEngine ctx orders) ∧
    (∀ results : List ResultRec,
      computeMetricsQt results = computeMetrics results) ∧
    (∀ (ctx : Ctx) (flags : Flags) (strat : Option Strategy),
      processScenarioQt ctx flags strat = processScenario ctx flags strat) := by
  refine ⟨?_, ?_, ?_, ?_⟩
  · intro ctx used row
    rw [processOrderQt_eq]
  · intro ctx orders
    simp only [runEngineQt, runEngine, runFromQt_eq]
  · intro results
    rw [computeMetricsQt_eq]
  · intro ctx flags strat
    simp only [processScenarioQt, processScenario, runEngineQt, runEngine,
      runFromQt_eq, computeMetricsQt_eq]

end Plannr
